import Mathlib

/-!
Verification of the secretty redaction pipeline (Go sources) against its
natural-language specification.  Go byte slices are modelled as `List Nat`
(each element intended in `0..255`; none of the verified code depends on the
bound), Go `int` as `Int`, Go strings carried by the redaction config as the
list of their UTF-8 bytes, and Go `string`-typed enums (`types.Action`,
`types.SecretType`, `types.MaskStyle`) as Lean `String`.
-/

namespace Secretty

/-- Bytes of the UTF-8 encoding of a character (mirrors how Go stores a
`string` as UTF-8 bytes). -/
def utf8EncodeChar (c : Char) : List Nat :=
  let n := c.toNat
  if n < 0x80 then [n]
  else if n < 0x800 then [0xc0 + n / 64, 0x80 + n % 64]
  else if n < 0x10000 then
    [0xe0 + n / 4096, 0x80 + (n / 64) % 64, 0x80 + n % 64]
  else
    [0xf0 + n / 262144, 0x80 + (n / 4096) % 64, 0x80 + (n / 64) % 64,
      0x80 + n % 64]

/-- UTF-8 bytes of a Lean string, i.e. the bytes of the same Go string. -/
def strBytes (s : String) : List Nat :=
  (s.toList.map utf8EncodeChar).flatten

/-- Go slice expression `text[a:b]` for `0 ≤ a ≤ b ≤ len text` (call sites
in the embedded code are guarded exactly as the Go source is). -/
def sliceInt (text : List Nat) (a b : Int) : List Nat :=
  (text.drop a.toNat).take (b.toNat - a.toNat)

/-! ## ANSI tokenizer (`internal/ansi`, tokenizer source file) -/

/-- `SegmentKind` from the tokenizer source. -/
inductive SegKind where
  | text
  | esc
deriving DecidableEq, Repr

/-- `Segment` from the tokenizer source. -/
structure Segment where
  kind : SegKind
  bytes : List Nat
deriving DecidableEq, Repr

/-- `escState` from the tokenizer source. -/
inductive EscState where
  | text
  | escStart
  | csi
  | osc
  | dcs
  | sos
  | pm
  | apc
deriving DecidableEq, Repr

/-- `ansi.Tokenizer` persistent state. -/
structure Tokenizer where
  st : EscState
  escBuf : List Nat
  escInString : Bool
deriving DecidableEq, Repr

/-- The zero-valued `ansi.Tokenizer{}` used by the stream. -/
def Tokenizer.init : Tokenizer := ⟨.text, [], false⟩

/-- In-flight state of one `Push` call: the tokenizer fields plus the local
`textBuf` and the accumulated `segments`. -/
structure PushAcc where
  tok : Tokenizer
  textBuf : List Nat
  segs : List Segment

/-- `flushText` closure inside `Tokenizer.Push`. -/
def flushText (a : PushAcc) : PushAcc :=
  if a.textBuf = [] then a
  else { a with textBuf := [], segs := a.segs ++ [⟨.text, a.textBuf⟩] }

/-- `flushEsc` closure inside `Tokenizer.Push`. -/
def flushEsc (a : PushAcc) : PushAcc :=
  if a.tok.escBuf = [] then a
  else
    { tok := ⟨.text, [], false⟩, textBuf := a.textBuf,
      segs := a.segs ++ [⟨.esc, a.tok.escBuf⟩] }

/-- Body of the per-byte loop of `Tokenizer.Push`. -/
def pushByte (a : PushAcc) (b : Nat) : PushAcc :=
  match a.tok.st with
  | .text =>
    if b = 0x1b then
      let a := flushText a
      { a with tok := { a.tok with escBuf := a.tok.escBuf ++ [b], st := .escStart } }
    else
      { a with textBuf := a.textBuf ++ [b] }
  | .escStart =>
    let a := { a with tok := { a.tok with escBuf := a.tok.escBuf ++ [b] } }
    if b = 91 then { a with tok := { a.tok with st := .csi } }
    else if b = 93 then { a with tok := { a.tok with st := .osc } }
    else if b = 80 then { a with tok := { a.tok with st := .dcs } }
    else if b = 88 then { a with tok := { a.tok with st := .sos } }
    else if b = 94 then { a with tok := { a.tok with st := .pm } }
    else if b = 95 then { a with tok := { a.tok with st := .apc } }
    else flushEsc a
  | .csi =>
    let a := { a with tok := { a.tok with escBuf := a.tok.escBuf ++ [b] } }
    if 0x40 ≤ b ∧ b ≤ 0x7e then flushEsc a else a
  | _ =>
    -- states OSC, DCS, SOS, PM, APC share one branch in the source
    let a := { a with tok := { a.tok with escBuf := a.tok.escBuf ++ [b] } }
    if a.tok.st = .osc ∧ b = 0x07 then flushEsc a
    else if a.tok.escInString then
      if b = 92 then flushEsc a
      else { a with tok := { a.tok with escInString := false } }
    else if b = 0x1b then { a with tok := { a.tok with escInString := true } }
    else a

/-- `Tokenizer.Push`: returns the completed segments and the new state. -/
def Tokenizer.push (t : Tokenizer) (data : List Nat) :
    List Segment × Tokenizer :=
  let a := data.foldl pushByte ⟨t, [], []⟩
  let a := if a.tok.st = .text then flushText a else a
  (a.segs, a.tok)

/-- `Tokenizer.Flush`: emits any pending bytes as an escape segment. -/
def Tokenizer.flush (t : Tokenizer) : List Segment × Tokenizer :=
  if t.st = .text then ([], t)
  else ([⟨.esc, t.escBuf⟩], ⟨.text, [], false⟩)

/-- Concatenated bytes of a segment list. -/
def segsBytes (segs : List Segment) : List Nat :=
  (segs.map Segment.bytes).flatten

/-- Successive `Push` calls over a list of chunks, collecting all segments
in emission order: the "successive Push calls on those chunks, followed by
Flush" driver of the round-trip property. -/
def pushAll : Tokenizer → List (List Nat) → List Segment × Tokenizer
  | t, [] => ([], t)
  | t, ch :: rest =>
    let r := t.push ch
    let r2 := pushAll r.2 rest
    (r.1 ++ r2.1, r2.2)

/-- Bytes accounted for by an in-flight push state: already emitted segments,
the pending text buffer, then the pending escape buffer. -/
def accBytes (a : PushAcc) : List Nat :=
  segsBytes a.segs ++ a.textBuf ++ a.tok.escBuf

/-- Structural invariant of a push state: in text state the escape buffer is
empty, outside text state the text buffer is empty. -/
def accWF (a : PushAcc) : Prop :=
  (a.tok.st = .text → a.tok.escBuf = []) ∧
  (a.tok.st ≠ .text → a.textBuf = [])

/-! ## Match (`internal/redact`, detector types source file) -/

/-- `redact.Match`.  The Go field `End` is spelled `stop` because `end` is a
reserved word in Lean; `Action` and `SecretType` are Go string types, kept
as `String`. -/
structure Match where
  start : Int
  stop : Int
  action : String := ""
  secretType : String := ""
  ruleName : String := ""
  id : Int := 0
deriving DecidableEq, Repr

/-! ## Safe emit boundary (`internal/redact/stream.go`, `safeEmitLen`) -/

/-- One full pass of the inner `for _, m := range ms` loop of
`safeEmitLen`: threads `emitLen` and the `changed` flag. -/
def safePass (ms : List Match) (e : Int) : Int × Bool :=
  ms.foldl (fun acc m =>
    if m.start < acc.1 ∧ m.stop > acc.1 then (m.start, true) else acc)
    (e, false)

/-- Outer `for { ... }` loop of `safeEmitLen`; terminates because each
changed pass strictly lowers `emitLen`. -/
def safeEmitLoop (ms : List Match) (e : Int) : Int :=
  if h : (safePass ms e).2 = true then
    if (safePass ms e).1 ≤ 0 then 0 else safeEmitLoop ms (safePass ms e).1
  else (safePass ms e).1
termination_by e.toNat
decreasing_by
  -- inline: a changed pass strictly lowers emitLen
  have go_le : ∀ (l : List Match) (init : Int × Bool),
      (l.foldl (fun acc m =>
        if m.start < acc.1 ∧ m.stop > acc.1 then (m.start, true) else acc)
        init).1 ≤ init.1 := by
    intro l
    induction l with
    | nil => intro init; simp
    | cons m rest ih =>
      intro init
      simp only [List.foldl_cons]
      split_ifs with hcnd
      · exact le_trans (ih (m.start, true)) (le_of_lt hcnd.1)
      · exact ih init
  have hlt : (safePass ms e).1 < e := by
    unfold safePass at h ⊢
    clear * - h go_le
    induction ms generalizing e with
    | nil => simp at h
    | cons m rest ih =>
      simp only [List.foldl_cons] at h ⊢
      split_ifs at h ⊢ with hc
      · calc (rest.foldl _ (m.start, true)).1 ≤ m.start :=
              go_le rest (m.start, true)
          _ < e := hc.1
      · exact ih e h
  simp only [not_le] at *
  omega

/-- `safeEmitLen` from `internal/redact/stream.go`. -/
def safeEmitLen (emitLen : Int) (ms : List Match) : Int :=
  if emitLen ≤ 0 then 0 else safeEmitLoop ms emitLen

/-! ## Go `unicode/utf8.RuneCount` over byte lists -/

/-- First-byte classification of a UTF-8 encoding: `(size, lo, hi)` is the
total encoded size and the accepted range of the second byte; `none` marks a
byte that cannot start a valid multi-byte encoding (the `xx` entries of the
`first` table in Go `unicode/utf8`). -/
def utf8AcceptInfo (c : Nat) : Option (Nat × Nat × Nat) :=
  if 0xc2 ≤ c ∧ c ≤ 0xdf then some (2, 0x80, 0xbf)
  else if c = 0xe0 then some (3, 0xa0, 0xbf)
  else if 0xe1 ≤ c ∧ c ≤ 0xec then some (3, 0x80, 0xbf)
  else if c = 0xed then some (3, 0x80, 0x9f)
  else if 0xee ≤ c ∧ c ≤ 0xef then some (3, 0x80, 0xbf)
  else if c = 0xf0 then some (4, 0x90, 0xbf)
  else if 0xf1 ≤ c ∧ c ≤ 0xf3 then some (4, 0x80, 0xbf)
  else if c = 0xf4 then some (4, 0x80, 0x8f)
  else none

/-- Continuation byte test (`locb ≤ b ≤ hicb` in Go `unicode/utf8`). -/
def utf8Cont (b : Nat) : Bool := decide (0x80 ≤ b ∧ b ≤ 0xbf)

/-- Bytes consumed beyond the first for the rune starting at `c` followed by
`rest`, mirroring one iteration of Go `utf8.RuneCount`: 0 whenever Go
advances by a single byte (ASCII, invalid first byte, truncated or rejected
continuation), else `size - 1`. -/
def utf8AdvanceTail (c : Nat) (rest : List Nat) : Nat :=
  if c < 0x80 then 0
  else
    match utf8AcceptInfo c with
    | none => 0
    | some (size, lo, hi) =>
      if rest.length + 1 < size then 0
      else
        match rest with
        | [] => 0
        | c1 :: r1 =>
          if ¬(lo ≤ c1 ∧ c1 ≤ hi) then 0
          else if size = 2 then 1
          else
            match r1 with
            | [] => 0
            | c2 :: r2 =>
              if ¬utf8Cont c2 then 0
              else if size = 3 then 2
              else
                match r2 with
                | [] => 0
                | c3 :: _ => if ¬utf8Cont c3 then 0 else 3

/-- Go `utf8.RuneCount` over a byte list. -/
def utf8RuneCount : List Nat → Nat
  | [] => 0
  | c :: rest => 1 + utf8RuneCount (rest.drop (utf8AdvanceTail c rest))
termination_by l => l.length
decreasing_by
  simp only [List.length_cons, List.length_drop]
  omega

/-! ## Masking engine (`internal/redact`, redactor source file) -/

/-- `isHexDigit` from the redactor source. -/
def isHexDigit (b : Nat) : Bool :=
  decide ((48 ≤ b ∧ b ≤ 57) ∨ (97 ≤ b ∧ b ≤ 102) ∨ (65 ≤ b ∧ b ≤ 70))

/-- Test for a leading `0x` / `0X` (byte values 48 and 120/88), shared by
`looksHex`, `hexRandomSameLength`, `validateEvmPrivateKey` and `has0xPrefix`
in the sources. -/
def hasHexMarker (b : List Nat) : Bool :=
  decide (2 ≤ b.length ∧ b.getD 0 0 = 48 ∧
    (b.getD 1 0 = 120 ∨ b.getD 1 0 = 88))

/-- `looksHex` from the redactor source. -/
def looksHex (b : List Nat) : Bool :=
  let b := if hasHexMarker b then b.drop 2 else b
  if b.length = 0 then false else b.all isHexDigit

/-- `randomHexNibble`: consumes one byte from the random source and picks a
hex digit by its value mod 16. -/
def randomHexNibble (rngByte : Nat) (uppercase : Bool) : Nat :=
  let idx := rngByte % 16
  (if uppercase then strBytes "0123456789ABCDEF"
   else strBytes "0123456789abcdef").getD idx 0

/-- `Redactor.hexRandomSameLength`.  The Go `io.Reader` random source is
modelled as `rng : Nat → Nat` (the byte produced by the i-th one-byte read)
together with the read position, which the caller threads; the function
returns the replacement and the new read position. -/
def hexRandomSameLength (rng : Nat → Nat) (pos : Nat) (original : List Nat)
    (uppercase : Bool) : List Nat × Nat :=
  let pb := if hasHexMarker original then (original.take 2, original.drop 2)
            else ([], original)
  (pb.1 ++ (List.range pb.2.length).map
      (fun i => randomHexNibble (rng (pos + i)) uppercase),
    pos + pb.2.length)

/-- `maskBlock`: the block char string repeated once per rune of the
original (Go `strings.Repeat(blockChar, utf8.RuneCount(original))`). -/
def maskBlock (original blockChar : List Nat) : List Nat :=
  let runes := utf8RuneCount original
  if runes ≤ 0 then [] else (List.replicate runes blockChar).flatten

/-- FNV-1a 32-bit hash (`hash/fnv.New32a`) over a byte list. -/
def fnv32a (data : List Nat) : Nat :=
  data.foldl (fun h b => ((h ^^^ b) * 16777619) % 4294967296) 2166136261

/-- `glowPalette` from the redactor source. -/
def glowPalette : List (Nat × Nat × Nat) :=
  [(45, 212, 191), (34, 211, 238), (56, 189, 248), (96, 165, 250),
   (129, 140, 248), (167, 139, 250), (192, 132, 252), (244, 114, 182),
   (251, 113, 133)]

/-- Mutable per-redactor state (`rng` read position plus the glow history
fields `lastGlowIndex` / `lastGlowBand` / `hasGlowHistory`). -/
structure RedState where
  rngPos : Nat := 0
  lastGlowIndex : Int := 0
  lastGlowBand : Int := 0
  hasGlowHistory : Bool := false

/-- `Redactor.glowParams`.  All quantities are non-negative, so Lean's
Euclidean `/` and `%` on `Int` agree with Go's truncated operators here. -/
def glowParams (st : RedState) (original : List Nat) :
    Int × Int × RedState :=
  if glowPalette.length = 0 then (0, 1, st)
  else
    let sum := fnv32a original
    let idx : Int := (sum % glowPalette.length : Nat)
    let bandSize : Int := ((sum / 256) % 4 : Nat) + 2
    let bandSize := if bandSize < 2 then 2 else bandSize
    let idx :=
      if st.hasGlowHistory ∧ idx = st.lastGlowIndex ∧
          bandSize = st.lastGlowBand ∧ 1 < glowPalette.length then
        (idx + 1) % (glowPalette.length : Int)
      else idx
    (idx, bandSize,
      { st with lastGlowIndex := idx, lastGlowBand := bandSize,
                hasGlowHistory := true })

/-- Decimal digits of a natural number as ASCII bytes. -/
def natDecimalBytes (n : Nat) : List Nat :=
  if n < 10 then [48 + n] else natDecimalBytes (n / 10) ++ [48 + n % 10]
termination_by n
decreasing_by
  simp only [not_lt] at *
  omega

/-- Go `strconv.Itoa` as ASCII bytes. -/
def intDecimalBytes (i : Int) : List Nat :=
  if i < 0 then 45 :: natDecimalBytes (-i).toNat else natDecimalBytes i.toNat

/-- Bytes of `fmt.Sprintf("\x1b[38;2;%d;%d;%dm", r, g, b)`. -/
def csiColor (r g b : Nat) : List Nat :=
  [27, 91, 51, 56, 59, 50, 59] ++ natDecimalBytes r ++ [59] ++
    natDecimalBytes g ++ [59] ++ natDecimalBytes b ++ [109]

/-- `maskGlow` from the redactor source. -/
def maskGlow (original blockChar : List Nat) (startIndex bandSize : Int) :
    List Nat :=
  let runes := utf8RuneCount original
  if runes ≤ 0 then []
  else
    let blockChar := if blockChar = [] then strBytes "█" else blockChar
    let startIndex := if startIndex < 0 then 0 else startIndex
    let bandSize := if bandSize ≤ 0 then 1 else bandSize
    ((List.range runes).map (fun i =>
        let color := glowPalette.getD
          (((startIndex + ((i : Int) / bandSize)) %
            (glowPalette.length : Int)).toNat) (0, 0, 0)
        csiColor color.1 color.2.1 color.2.2 ++ blockChar)).flatten ++
      [27, 91, 48, 109]

/-- ASCII fragment of Go `strings.ToUpper` (all call sites in the embedded
code feed ASCII rule data, where the two functions agree byte for byte). -/
def asciiToUpper (b : Nat) : Nat :=
  if 97 ≤ b ∧ b ≤ 122 then b - 32 else b

/-- ASCII white-space test, the fragment of Go `unicode.IsSpace` relevant to
the ASCII strings handled here. -/
def isSpaceByte (b : Nat) : Bool :=
  decide (b = 32 ∨ b = 9 ∨ b = 10 ∨ b = 13 ∨ b = 11 ∨ b = 12)

/-- Go `strings.TrimSpace` (ASCII fragment). -/
def trimSpace (l : List Nat) : List Nat :=
  ((l.dropWhile isSpaceByte).reverse.dropWhile isSpaceByte).reverse

/-- `morseAlphabet` lookup: the Morse code of an upper-case letter or digit
byte, `none` for every other byte (absence from the Go map). -/
def morseCode (b : Nat) : Option (List Nat) :=
  if b = 65 then some (strBytes ".-")
  else if b = 66 then some (strBytes "-...")
  else if b = 67 then some (strBytes "-.-.")
  else if b = 68 then some (strBytes "-..")
  else if b = 69 then some (strBytes ".")
  else if b = 70 then some (strBytes "..-.")
  else if b = 71 then some (strBytes "--.")
  else if b = 72 then some (strBytes "....")
  else if b = 73 then some (strBytes "..")
  else if b = 74 then some (strBytes ".---")
  else if b = 75 then some (strBytes "-.-")
  else if b = 76 then some (strBytes ".-..")
  else if b = 77 then some (strBytes "--")
  else if b = 78 then some (strBytes "-.")
  else if b = 79 then some (strBytes "---")
  else if b = 80 then some (strBytes ".--.")
  else if b = 81 then some (strBytes "--.-")
  else if b = 82 then some (strBytes ".-.")
  else if b = 83 then some (strBytes "...")
  else if b = 84 then some (strBytes "-")
  else if b = 85 then some (strBytes "..-")
  else if b = 86 then some (strBytes "...-")
  else if b = 87 then some (strBytes ".--")
  else if b = 88 then some (strBytes "-..-")
  else if b = 89 then some (strBytes "-.--")
  else if b = 90 then some (strBytes "--..")
  else if b = 48 then some (strBytes "-----")
  else if b = 49 then some (strBytes ".----")
  else if b = 50 then some (strBytes "..---")
  else if b = 51 then some (strBytes "...--")
  else if b = 52 then some (strBytes "....-")
  else if b = 53 then some (strBytes ".....")
  else if b = 54 then some (strBytes "-....")
  else if b = 55 then some (strBytes "--...")
  else if b = 56 then some (strBytes "---..")
  else if b = 57 then some (strBytes "----.")
  else none

/-- Go `strings.Join(parts, " ")`. -/
def joinSpace (parts : List (List Nat)) : List Nat :=
  (parts.intersperse (strBytes " ")).flatten

/-- `morsePattern` from the redactor source (ASCII messages; the default
config message is "SECRETTY"). -/
def morsePattern (message : List Nat) : List Nat :=
  let msg := (trimSpace message).map asciiToUpper
  let msg := if msg = [] then strBytes "SECRETTY" else msg
  let parts := msg.foldl (fun parts r =>
    if r = 32 then parts ++ [strBytes "/"]
    else match morseCode r with
      | some code => parts ++ [code]
      | none => parts) ([] : List (List Nat))
  joinSpace parts

/-- The `for len(out) < runes` loop of `maskMorse`: keep appending
`" " ++ pattern` until the output is at least `runes` bytes long. -/
def morseExtend (pattern out : List Nat) (runes : Nat) : List Nat :=
  if h : out.length < runes then
    morseExtend pattern (out ++ [32] ++ pattern) runes
  else out
termination_by runes - out.length
decreasing_by
  simp only [List.length_append, List.length_cons, List.length_nil]
  omega

/-- `maskMorse` from the redactor source. -/
def maskMorse (original message : List Nat) : List Nat :=
  let runes := utf8RuneCount original
  if runes ≤ 0 then []
  else
    let pattern := trimSpace (morsePattern message)
    let pattern := if pattern = [] then strBytes "... --- ..." else pattern
    (morseExtend pattern pattern runes).take runes

/-- Go `strings.ReplaceAll` for a non-empty pattern (every call site in the
redactor passes a fixed non-empty literal; the empty-pattern special case of
the Go function is never reached). -/
def replaceAll : List Nat → List Nat → List Nat → List Nat
  | [], _, _ => []
  | c :: rest, old, new =>
    if old ≠ [] ∧ old.isPrefixOf (c :: rest) then
      new ++ replaceAll ((c :: rest).drop old.length) old new
    else c :: replaceAll rest old new
termination_by s _ _ => s.length
decreasing_by
  · rename_i hp
    simp only [List.length_cons, List.length_drop]
    have : old.length ≥ 1 := by
      cases old with
      | nil => simp at hp
      | cons x xs => simp
    omega
  · simp

/-- Go `fmt.Sprintf("%02d", id)` as ASCII bytes. -/
def pad02 (i : Int) : List Nat :=
  let s := intDecimalBytes i
  if s.length < 2 then List.replicate (2 - s.length) 48 ++ s else s

/-- `config.Masking` fields consumed by the redactor. -/
structure MaskingCfg where
  style : String := ""
  blockChar : List Nat := []
  hexUppercase : Bool := false
  stableHashEnabled : Bool := false
  stableHashTagLen : Int := 0
  morseMessage : List Nat := []

/-- `config.Redaction` fields consumed by the redactor and the stream. -/
structure RedactionCfg where
  defaultAction : String := ""
  placeholderTemplate : List Nat := []
  includeEventID : Bool := false
  rollingWindowBytes : Int := 0
  statusLineEnabled : Bool := false
  statusLineRateLimitMS : Int := 0

/-- `redact.Redactor`: its config plus the random source.  `hmacTag rule ty`
stands, uninterpreted, for the bytes of
`hex.EncodeToString(HMAC-SHA256(salt, rule ++ "|" ++ ty))` computed by
`stableHashToken`; the cryptographic digest is a library primitive (not
repository code) and the 32-byte salt is fixed per redactor, so the whole
digest enters the embedding as an opaque function of its two inputs.  No
theorem below evaluates it. -/
structure Redactor where
  masking : MaskingCfg
  redaction : RedactionCfg
  rng : Nat → Nat
  hmacTag : String → String → List Nat

/-- `Redactor.stableHashToken`: `⟦MASK:{type}:{tag}⟧` with the tag truncated
to `tag_len` when `0 < tag_len < len(tag)`. -/
def Redactor.stableHashToken (r : Redactor) (m : Match) : List Nat :=
  let tag := r.hmacTag m.ruleName m.secretType
  let tag := if 0 < r.masking.stableHashTagLen ∧
      r.masking.stableHashTagLen < (tag.length : Int) then
    tag.take r.masking.stableHashTagLen.toNat
  else tag
  strBytes "⟦MASK:" ++ strBytes m.secretType ++ [58] ++ tag ++ strBytes "⟧"

/-- `Redactor.placeholder`: template substitution of `\x7btype\x7d`,
`\x7bid:02d\x7d` and `\x7bid\x7d`, in the source's order. -/
def Redactor.placeholder (r : Redactor) (m : Match) : List Nat :=
  let template := r.redaction.placeholderTemplate
  let template := if template = [] then strBytes "⟦REDACTED:\x7btype\x7d⟧"
                  else template
  let repl := replaceAll template (strBytes "\x7btype\x7d")
    (strBytes m.secretType)
  let repl := replaceAll repl (strBytes "\x7bid:02d\x7d") (pad02 m.id)
  let repl := replaceAll repl (strBytes "\x7bid\x7d") (intDecimalBytes m.id)
  repl

/-- `Redactor.maskBytes`: dispatches on stable-hash, then the mask style;
the default branch picks hex-random for EVM keys and hex-looking spans, else
the block mask.  Returns the replacement and the updated redactor state. -/
def Redactor.maskBytes (r : Redactor) (st : RedState) (original : List Nat)
    (m : Match) : List Nat × RedState :=
  if r.masking.stableHashEnabled then (r.stableHashToken m, st)
  else
    let style := if r.masking.style = "" then "block" else r.masking.style
    if style = "glow" then
      let p := glowParams st original
      (maskGlow original r.masking.blockChar p.1 p.2.1, p.2.2)
    else if style = "morse" then
      (maskMorse original r.masking.morseMessage, st)
    else
      if m.secretType = "EVM_PK" ∨ looksHex original then
        let p := hexRandomSameLength r.rng st.rngPos original
          r.masking.hexUppercase
        (p.1, { st with rngPos := p.2 })
      else
        (maskBlock original r.masking.blockChar, st)

/-- `Redactor.replacement`: action selection with fallback to the config
default; unknown actions return the original bytes (the `default` branch of
the Go switch). -/
def Redactor.replacement (r : Redactor) (st : RedState) (original : List Nat)
    (m : Match) : List Nat × RedState :=
  let action := if m.action = "" then r.redaction.defaultAction else m.action
  if action = "mask" then r.maskBytes st original m
  else if action = "placeholder" then (r.placeholder m, st)
  else (original, st)

/-- Stable insertion of a match into a start-sorted list.  Models the
`sort.Slice(local, ...Start < Start)` call of `Redactor.Apply`; `sort.Slice`
is unstable, so for matches with equal `Start` this fixes one admissible
order (the original one). -/
def insertByStart (m : Match) : List Match → List Match
  | [] => [m]
  | x :: xs => if m.start < x.start then m :: x :: xs
               else x :: insertByStart m xs

/-- Sort by ascending `Start` (see `insertByStart`). -/
def sortByStart (ms : List Match) : List Match := ms.foldr insertByStart []

/-- Loop state of `Redactor.Apply`: the output buffer, the cursor, and the
threaded redactor state. -/
structure ApplyAcc where
  out : List Nat
  cursor : Int
  st : RedState

/-- One iteration of the `for _, m := range local` loop of `Redactor.Apply`:
skip overlapping (`Start < cursor`) and out-of-bounds spans, otherwise copy
the gap, emit the replacement, and advance the cursor. -/
def Redactor.applyStep (r : Redactor) (text : List Nat) (acc : ApplyAcc)
    (m : Match) : ApplyAcc :=
  if m.start < acc.cursor then acc
  else if m.start < 0 ∨ m.stop > (text.length : Int) ∨ m.stop ≤ m.start then
    acc
  else
    let original := sliceInt text m.start m.stop
    let p := r.replacement acc.st original m
    { out := acc.out ++ sliceInt text acc.cursor m.start ++ p.1,
      cursor := m.stop, st := p.2 }

/-- `Redactor.Apply`: replaces matches inside `text`.  Mirrors the Go
signature's `([]byte, error)` pair — the function can only ever produce a
`nil` error. -/
def Redactor.apply (r : Redactor) (st : RedState) (text : List Nat)
    (ms : List Match) : (List Nat × Option String) × RedState :=
  if ms = [] then ((text, none), st)
  else
    let sorted := sortByStart ms
    let acc := sorted.foldl (r.applyStep text) ⟨[], 0, st⟩
    ((acc.out ++ sliceInt text acc.cursor (text.length : Int), none), acc.st)

/-! ## Detection engine (`internal/detect/engine.go`) -/

/-- ASCII fragment of Go `strings.ToLower` (keyword and window data at the
call sites below are ASCII, where the two agree byte for byte). -/
def asciiToLower (b : Nat) : Nat :=
  if 65 ≤ b ∧ b ≤ 90 then b + 32 else b

/-- Go `strings.Contains` over byte lists. -/
def containsSub : List Nat → List Nat → Bool
  | hay, needle =>
    if needle.isPrefixOf hay then true
    else
      match hay with
      | [] => false
      | _ :: t => containsSub t needle

/-- `config.RegexRule`. -/
structure RegexRuleCfg where
  pattern : String := ""
  group : Int := 0

/-- `config.Rule` (fields consumed by the engine; `secretType` and `ruleset`
are the fields the repository's test suite sets on rules). -/
structure Rule where
  name : String := ""
  enabled : Bool := false
  type : String := ""
  action : String := ""
  severity : String := ""
  secretType : String := ""
  ruleset : String := ""
  regex : Option RegexRuleCfg := none
  contextKeywords : List (List Nat) := []

/-- `config.TypedDetector`. -/
structure TypedDetectorCfg where
  name : String := ""
  enabled : Bool := false
  kind : String := ""
  action : String := ""
  severity : String := ""
  contextKeywords : List (List Nat) := []

/-- The slice of `config.Config` consumed by `detect.NewEngine`. -/
structure EngineCfg where
  rules : List Rule := []
  typedDetectors : List TypedDetectorCfg := []
  allowBare64Hex : Bool := false

/-- `detect.compiledRule`.  The compiled Go regular expression is a library
value, so its matcher enters the embedding as the function
`re text = FindAllStringSubmatchIndex(string(text), -1)`: one flattened
submatch index list per match, exactly as the Go library returns them. -/
structure compiledRule where
  rule : Rule
  re : List Nat → List (List Int)
  group : Int
  severity : Int

/-- `detect.typedDetector`. -/
structure typedDetector where
  detector : TypedDetectorCfg
  severity : Int
  keywords : List (List Nat)

/-- `detect.sourceKind`. -/
inductive SourceKind where
  | regex
  | typed
deriving DecidableEq, Repr

/-- `detect.candidate` (the Go field `match` is spelled `m`; `match` is a
reserved word in Lean). -/
structure Candidate where
  m : Match
  severity : Int
  source : SourceKind
  length : Int
deriving DecidableEq, Repr

/-- `detect.Engine`.  `evmWithPrefix` / `evmBare` model the two fixed
library regexes (`0x[0-9a-fA-F]\x7b64\x7d` and the bare word-bounded form)
as `FindAllStringIndex` oracles; no theorem below depends on them. -/
structure Engine where
  regexRules : List compiledRule
  typed : List typedDetector
  evmWithPrefix : List Nat → List (Int × Int)
  evmBare : List Nat → List (Int × Int)
  allowBare64Hex : Bool

/-- `severityRank` from the engine source. -/
def severityRank (severity : String) : Int :=
  if severity = "high" then 3
  else if severity = "med" then 2
  else if severity = "low" then 1
  else 0

/-- `lowerKeywords` from the engine source: drops empty keywords and
lower-cases the rest. -/
def lowerKeywords (keywords : List (List Nat)) : List (List Nat) :=
  if keywords = [] then []
  else (keywords.filter (fun kw => kw ≠ [])).map (List.map asciiToLower)

/-- `detect.NewEngine`, parameterised by the regex compiler oracle
`compile pattern = FindAllStringSubmatchIndex of the compiled pattern` and
the two fixed EVM matcher oracles.  Mirrors the construction loops: only
enabled regex rules with a non-empty pattern are compiled; only enabled
typed detectors are kept, with lower-cased keywords. -/
def NewEngine (compile : String → List Nat → List (List Int))
    (evmWithPrefix evmBare : List Nat → List (Int × Int))
    (cfg : EngineCfg) : Engine :=
  let regexRules := (cfg.rules.map (fun rule =>
    if ¬rule.enabled then []
    else if rule.type ≠ "regex" then []
    else
      match rule.regex with
      | none => []
      | some rr =>
        if rr.pattern = "" then []
        else [(⟨rule, compile rr.pattern, rr.group,
                severityRank rule.severity⟩ : compiledRule)])).flatten
  let typed := (cfg.typedDetectors.map (fun det =>
    if ¬det.enabled then []
    else [(⟨det, severityRank det.severity,
            lowerKeywords det.contextKeywords⟩ : typedDetector)])).flatten
  ⟨regexRules, typed, evmWithPrefix, evmBare, cfg.allowBare64Hex⟩

/-- `captureBounds` from the engine source. -/
def captureBounds (submatches : List Int) (group : Int) : Int × Int :=
  if group < 0 then (-1, -1)
  else
    let idx := group * 2
    if idx + 1 ≥ (submatches.length : Int) then (-1, -1)
    else (submatches.getD idx.toNat 0, submatches.getD (idx + 1).toNat 0)

/-- `Engine.findRegexMatches`: every submatch span of every compiled rule
with valid capture bounds becomes a candidate.  The secret type recorded is
the constant `types.SecretEvmPrivateKey` ("EVM_PK"), as in the source. -/
def findRegexMatches (e : Engine) (text : List Nat) : List Candidate :=
  if e.regexRules.length = 0 then []
  else (e.regexRules.map (fun rule =>
    ((rule.re text).map (fun idx =>
      let se := captureBounds idx rule.group
      if se.1 < 0 ∨ se.2 ≤ se.1 then []
      else [(⟨⟨se.1, se.2, rule.rule.action, "EVM_PK", rule.rule.name, 0⟩,
              rule.severity, .regex, se.2 - se.1⟩ : Candidate)])).flatten)).flatten

/-- `isHex` from the engine source (true on the empty list, as in Go). -/
def isHex (token : List Nat) : Bool := token.all isHexDigit

/-- `validateEvmPrivateKey` from the engine source. -/
def validateEvmPrivateKey (token : List Nat) (allowBare : Bool) : Bool :=
  if hasHexMarker token then
    isHex (token.drop 2) && decide ((token.drop 2).length = 64)
  else if ¬allowBare then false
  else decide (token.length = 64) && isHex token

/-- `hasContextKeyword` from the engine source: some lower-cased keyword
occurs in the lower-cased `±64`-byte window around the span. -/
def hasContextKeyword (text : List Nat) (start stop : Int)
    (keywords : List (List Nat)) : Bool :=
  if keywords.length = 0 then false
  else
    let windowStart := if start - 64 < 0 then 0 else start - 64
    let windowEnd := if stop + 64 > (text.length : Int) then
      (text.length : Int) else stop + 64
    let chunk := (sliceInt text windowStart windowEnd).map asciiToLower
    keywords.any (fun kw => containsSub chunk kw)

/-- `Engine.buildTypedCandidate` with its scoring (validation +2, context
keyword +1, `0x` prefix +1; threshold 2). -/
def buildTypedCandidate (e : Engine) (text : List Nat) (start stop : Int)
    (det : typedDetector) : List Candidate :=
  if start < 0 ∨ stop ≤ start ∨ stop > (text.length : Int) then []
  else
    let matchBytes := sliceInt text start stop
    let score : Int :=
      (if validateEvmPrivateKey matchBytes e.allowBare64Hex then 2 else 0) +
      (if hasContextKeyword text start stop det.keywords then 1 else 0) +
      (if hasHexMarker matchBytes then 1 else 0)
    if score < 2 then []
    else [⟨⟨start, stop, det.detector.action, "EVM_PK", det.detector.name, 0⟩,
           det.severity, .typed, stop - start⟩]

/-- `Engine.findTypedMatches`. -/
def findTypedMatches (e : Engine) (text : List Nat) : List Candidate :=
  if e.typed.length = 0 then []
  else (e.typed.map (fun det =>
    if det.detector.kind ≠ "EVM_PRIVATE_KEY" then []
    else
      ((e.evmWithPrefix text).map (fun idx =>
        buildTypedCandidate e text idx.1 idx.2 det)).flatten ++
      (if e.allowBare64Hex then
        ((e.evmBare text).map (fun idx =>
          buildTypedCandidate e text idx.1 idx.2 det)).flatten
      else []))).flatten

/-- `betterCandidate` from the engine source. -/
def betterCandidate (a b : Candidate) : Bool :=
  if a.severity ≠ b.severity then decide (a.severity > b.severity)
  else if a.source ≠ b.source then decide (a.source = .typed)
  else if a.length ≠ b.length then decide (a.length > b.length)
  else decide (a.m.start < b.m.start)

/-- Stable insertion into a `(start, stop)`-sorted candidate list; models
the `sort.Slice` call of `resolveOverlaps` (one admissible order of the
unstable sort). -/
def insertCandidate (c : Candidate) : List Candidate → List Candidate
  | [] => [c]
  | x :: xs =>
    if c.m.start < x.m.start ∨ (c.m.start = x.m.start ∧ c.m.stop < x.m.stop)
    then c :: x :: xs
    else x :: insertCandidate c xs

/-- Sort candidates by ascending `(start, stop)` (see `insertCandidate`). -/
def sortCandidates (cs : List Candidate) : List Candidate :=
  cs.foldr insertCandidate []

/-- `resolveOverlaps` from the engine source: a linear sweep keeping the
better of any two overlapping candidates. -/
def resolveOverlaps (cands : List Candidate) : List Candidate :=
  (sortCandidates cands).foldl (fun out cand =>
    match out.getLast? with
    | none => out ++ [cand]
    | some last =>
      if cand.m.start ≥ last.m.stop then out ++ [cand]
      else if betterCandidate cand last then out.dropLast ++ [cand]
      else out) []

/-- `Engine.Find`. -/
def Engine.find (e : Engine) (text : List Nat) : List Match :=
  let candidates := findRegexMatches e text ++ findTypedMatches e text
  if candidates.length = 0 then []
  else (resolveOverlaps candidates).map Candidate.m

/-! ## Secret cache (`internal/cache`, cache source file) -/

/-- `cache.SecretRecord`.  The Go field `Type` is spelled `stype` (`type` is
reserved in Lean); `label` (a Go string) is carried as its bytes.  Times are
modelled as integers (Go `time.Time`), with `0` standing for the zero time
checked by `IsZero`. -/
structure SecretRecord where
  id : Int := 0
  stype : String := ""
  original : List Nat := []
  ruleName : String := ""
  label : List Nat := []
  createdAt : Int := 0
  expiresAt : Int := 0
deriving DecidableEq, Repr

/-- `cache.Cache`.  The `container/list` LRU plus the `byID` map are both
modelled by `entries`, front = most recently used, with unique ids in every
reachable state.  The `now` clock is passed explicitly to each operation. -/
structure Cache where
  entries : List SecretRecord := []
  maxEntries : Int := 0
  ttl : Int := 0
  lastID : Int := 0
deriving DecidableEq, Repr

/-- `cache.New`. -/
def cacheNew (maxEntries ttl : Int) : Cache :=
  let maxEntries := if maxEntries ≤ 0 then 64 else maxEntries
  { entries := [], maxEntries := maxEntries, ttl := ttl, lastID := 0 }

/-- The expiry test `!rec.ExpiresAt.IsZero() && now.After(rec.ExpiresAt)`
shared by `Get`, `GetLast` and `evictExpiredLocked`. -/
def recExpired (now : Int) (rec : SecretRecord) : Bool :=
  decide (¬rec.expiresAt = 0 ∧ now > rec.expiresAt)

/-- `Cache.evictExpiredLocked`: removes every expired entry (iteration
order does not matter, the surviving order is preserved). -/
def evictExpired (now : Int) (c : Cache) : Cache :=
  { c with entries := c.entries.filter (fun rec => ¬recExpired now rec) }

/-- `Cache.evictLocked`: expiry eviction, then LRU eviction from the back
down to `maxEntries`. -/
def evictLocked (now : Int) (c : Cache) : Cache :=
  let c := evictExpired now c
  { c with entries := c.entries.take c.maxEntries.toNat }

/-- `Cache.Put`. -/
def cachePut (c : Cache) (now : Int) (record : SecretRecord) : Cache :=
  if c.ttl ≤ 0 then c
  else if record.original = [] then c
  else
    let lastID := max c.lastID record.id
    let record := { record with createdAt := now, expiresAt := now + c.ttl }
    let entries := c.entries.filter (fun r => r.id ≠ record.id)
    evictLocked now { c with entries := record :: entries, lastID := lastID }

/-- `Cache.Get`: find by id; expired entries are removed and reported
missing; hits move to the front (most recently used). -/
def cacheGet (c : Cache) (now : Int) (id : Int) :
    Option SecretRecord × Cache :=
  match c.entries.find? (fun r => r.id = id) with
  | none => (none, c)
  | some rec =>
    if recExpired now rec then
      (none, { c with entries := c.entries.filter (fun r => r.id ≠ rec.id) })
    else
      (some rec,
        { c with entries :=
            rec :: c.entries.filter (fun r => r.id ≠ rec.id) })

/-! ## IPC copy-id (`internal/ipc/ipc.go`, `Server.handle`) -/

/-- The wire response object (fields used by the `copy-id` branch; the Go
zero value has `ok = false` and empty strings). -/
structure IpcResponse where
  ok : Bool := false
  error : String := ""
  id : Int := 0
  ruleName : String := ""
  stype : String := ""
  label : List Nat := []
deriving DecidableEq, Repr

/-- The `case "copy-id"` branch of `Server.handle`.  A JSON request without
an `id` field decodes to `0` (Go zero value), so "id absent" and "id = 0"
coincide at this point.  `copyFn` models the injected clipboard callback:
`none` is success, `some msg` an error with message `msg`.  Returns the
response and the cache (mutated by `Get`'s LRU/expiry behaviour). -/
def handleCopyId (c : Cache) (now : Int)
    (copyFn : List Nat → Option String) (reqId : Int) :
    IpcResponse × Cache :=
  if reqId = 0 then ({ ok := false, error := "missing id" }, c)
  else
    let g := cacheGet c now reqId
    match g.1 with
    | none => ({ ok := false, error := "secret not found" }, g.2)
    | some rec =>
      match copyFn rec.original with
      | some msg => ({ ok := false, error := msg }, g.2)
      | none =>
        ({ ok := true, id := rec.id, ruleName := rec.ruleName,
           stype := rec.stype, label := rec.label }, g.2)

/-! ## Redaction stream (`internal/redact/stream.go`) -/

/-- `config.Strict`. -/
structure StrictCfg where
  noReveal : Bool := false
  lockUntilExit : Bool := false
  disableCopyOriginal : Bool := false

/-- The slice of `config.Config` consumed by `redact.NewStream`. -/
structure Config where
  mode : String := ""
  strict : StrictCfg := {}
  redaction : RedactionCfg := {}
  masking : MaskingCfg := {}
  copyWithoutRenderEnabled : Bool := false

/-- Go `utf8.FullRune`: the bytes begin with a complete encoding — either
enough bytes for the declared size of the first byte (invalid first bytes
declare size 1 and decode as `RuneError`), or an early continuation byte is
already out of range (the prefix then decodes as a complete `RuneError`). -/
def utf8FullRune (p : List Nat) : Bool :=
  match p with
  | [] => false
  | c :: rest =>
    match if c < 0x80 then none else utf8AcceptInfo c with
    | none => true
    | some (size, lo, hi) =>
      if size ≤ p.length then true
      else
        match rest with
        | [] => false
        | c1 :: r1 =>
          if ¬(lo ≤ c1 ∧ c1 ≤ hi) then true
          else
            match r1 with
            | [] => false
            | c2 :: _ => if ¬utf8Cont c2 then true else false

/-- `utf8.RuneStart` is `b & 0xC0 != 0x80`; its negation is the
continuation-byte test `utf8Cont`. -/
def splitUTF8Tail (buf : List Nat) : List Nat × List Nat :=
  if buf = [] then ([], [])
  else
    let tailLen := (buf.reverse.takeWhile utf8Cont).length
    if tailLen = buf.length then ([], buf)
    else
      let start := buf.length - 1 - tailLen
      if utf8FullRune (buf.drop start) then (buf, [])
      else (buf.take start, buf.drop start)

/-- `utf8SafePrefixLen` from the stream source. -/
def utf8SafePrefixLen (buf : List Nat) (mx : Int) : Int :=
  if mx ≤ 0 then 0
  else
    let mx := if mx > (buf.length : Int) then (buf.length : Int) else mx
    ((splitUTF8Tail (buf.take mx.toNat)).1.length : Int)

/-- `isControlByte` from the stream source. -/
def isControlByte (b : Nat) : Bool :=
  if b = 10 ∨ b = 9 then false else decide (b < 0x20 ∨ b = 0x7f)

/-- `textRun` from the stream source. -/
structure TextRun where
  control : Bool
  bytes : List Nat

/-- `splitControlRuns`: maximal runs of bytes with equal `isControlByte`
classification, in order. -/
def splitControlRuns : List Nat → List TextRun
  | [] => []
  | b :: rest =>
    let same := rest.takeWhile (fun x => isControlByte x = isControlByte b)
    ⟨isControlByte b, b :: same⟩ ::
      splitControlRuns (rest.drop same.length)
termination_by buf => buf.length
decreasing_by
  simp only [List.length_cons, List.length_drop]
  omega

/-- `filterMatches` from the stream source: keep matches fully inside
`[0, emitLen)`. -/
def filterMatches (ms : List Match) (emitLen : Int) : List Match :=
  if ms.length = 0 then []
  else ms.filter (fun m => decide (m.start ≥ 0) && decide (m.stop ≤ emitLen))

/-- `ui.StatusLine`. -/
def statusLine (count : Int) (strict includeID : Bool)
    (secretType : String) (id : Int) : List Nat :=
  if count ≤ 0 then []
  else
    let pre := if strict then strBytes "secretty(strict):"
               else strBytes "secretty:"
    if count > 1 then
      pre ++ strBytes " redacted " ++ intDecimalBytes count ++
        strBytes " secrets"
    else if includeID ∧ id > 0 then
      pre ++ strBytes " redacted " ++ strBytes secretType ++ [35] ++
        intDecimalBytes id
    else pre ++ strBytes " redacted " ++ strBytes secretType

/-- The `\s` class of Go regexp (ASCII: tab, newline, form feed, carriage
return, space) used by `labelRegex`. -/
def regexSpace (b : Nat) : Bool :=
  decide (b = 9 ∨ b = 10 ∨ b = 12 ∨ b = 13 ∨ b = 32)

/-- First-character class `[A-Za-z_]` of `labelRegex`. -/
def isLabelStart (b : Nat) : Bool :=
  decide ((65 ≤ b ∧ b ≤ 90) ∨ (97 ≤ b ∧ b ≤ 122) ∨ b = 95)

/-- Continuation class `[A-Za-z0-9_-]` of `labelRegex`. -/
def isLabelChar (b : Nat) : Bool :=
  isLabelStart b || decide ((48 ≤ b ∧ b ≤ 57) ∨ b = 45)

/-- `labelRegex.FindSubmatch` capture group 1 for the anchored pattern
`^\s*([A-Za-z_][A-Za-z0-9_-]\x7b0,63\x7d)\s*[:=]`.  The character classes
are pairwise disjoint, so the greedy maximal-munch scan below is exactly the
backtracking regex semantics: a run longer than 63 continuation characters
cannot be completed by any shorter munch either. -/
def labelCapture (line : List Nat) : Option (List Nat) :=
  let rest := line.dropWhile regexSpace
  match rest with
  | [] => none
  | c :: t =>
    if ¬isLabelStart c then none
    else
      let run := t.takeWhile isLabelChar
      if 63 < run.length then none
      else
        match (t.drop run.length).dropWhile regexSpace with
        | [] => none
        | d :: _ => if d = 58 ∨ d = 61 then some (c :: run) else none

/-- Go `bytes.LastIndexByte`. -/
def lastIndexByte (l : List Nat) (b : Nat) : Int :=
  match l.reverse.findIdx? (fun x => x = b) with
  | none => -1
  | some i => (l.length : Int) - 1 - i

/-- Go `bytes.IndexByte`. -/
def indexByte (l : List Nat) (b : Nat) : Int :=
  match l.findIdx? (fun x => x = b) with
  | none => -1
  | some i => i

/-- `extractLabel` from the stream source: the `labelRegex` capture on the
line containing the match start. -/
def extractLabel (text : List Nat) (m : Match) : List Nat :=
  if m.start < 0 ∨ m.start > (text.length : Int) then []
  else
    let lineStart := lastIndexByte (sliceInt text 0 m.start) 10
    let lineStart := if lineStart = -1 then 0 else lineStart + 1
    let lineEnd := indexByte (sliceInt text m.start (text.length : Int)) 10
    let lineEnd := if lineEnd = -1 then (text.length : Int)
                   else lineEnd + m.start
    match labelCapture (sliceInt text lineStart lineEnd) with
    | none => []
    | some cap => cap

/-- `redact.Stream`.  The output sink is modelled as the list of bytes
written so far (`out`); the debug logger is a sanitized diagnostic sink that
touches neither the sink nor the cache and is omitted; the wall clock read
by the status-line rate limiter is passed into each operation (`now`, in
milliseconds). -/
structure Stream where
  tok : Tokenizer
  detector : List Nat → List Match
  redactor : Redactor
  redState : RedState
  windowSize : Int
  buffer : List Nat
  cache : Option Cache
  nextID : Int
  cacheOn : Bool
  includeID : Bool
  strictMode : Bool
  statusEnabled : Bool
  statusRateLimit : Int
  lastStatus : Int
  altScreen : Bool
  out : List Nat

/-- `redact.NewStream`.  A `nil` detector argument becomes `NoopDetector`
(`fun _ => []`) at every call site, so the model takes the detector function
directly; `rng` and `hmacTag` parameterise the redactor as in
`NewRedactor`. -/
def NewStream (cfg : Config) (detector : List Nat → List Match)
    (secretCache : Option Cache) (rng : Nat → Nat)
    (hmacTag : String → String → List Nat) : Stream :=
  let windowSize := if cfg.redaction.rollingWindowBytes < 0 then 32768
                    else cfg.redaction.rollingWindowBytes
  let cacheOn := cfg.copyWithoutRenderEnabled
  let cacheOn := if cfg.mode = "strict" ∧ cfg.strict.disableCopyOriginal
                 then false else cacheOn
  { tok := Tokenizer.init, detector := detector,
    redactor := ⟨cfg.masking, cfg.redaction, rng, hmacTag⟩,
    redState := {}, windowSize := windowSize, buffer := [],
    cache := secretCache, nextID := 0, cacheOn := cacheOn,
    includeID := cfg.redaction.includeEventID,
    strictMode := cfg.mode = "strict",
    statusEnabled := cfg.redaction.statusLineEnabled,
    statusRateLimit := cfg.redaction.statusLineRateLimitMS,
    lastStatus := 0, altScreen := false, out := [] }

/-- `Stream.assignIDs`. -/
def assignIDs (s : Stream) (ms : List Match) : List Match × Stream :=
  if ms.length = 0 then (ms, s)
  else if ¬s.includeID ∧ s.cache = none then (ms, s)
  else
    let p := ms.foldl (fun (acc : List Match × Int) m =>
      if m.id = 0 then (acc.1 ++ [{ m with id := acc.2 + 1 }], acc.2 + 1)
      else (acc.1 ++ [m], acc.2)) ([], s.nextID)
    (p.1, { s with nextID := p.2 })

/-- `Stream.storeMatches`: snapshots each valid span into the cache, only
when a cache exists and `cacheOn` holds. -/
def storeMatches (s : Stream) (now : Int) (text : List Nat)
    (ms : List Match) : Stream :=
  match s.cache with
  | none => s
  | some c =>
    if ¬s.cacheOn ∨ ms.length = 0 then s
    else
      let c := ms.foldl (fun c m =>
        if m.start < 0 ∨ m.stop > (text.length : Int) ∨ m.stop ≤ m.start
        then c
        else cachePut c now
          { id := m.id, stype := m.secretType,
            original := sliceInt text m.start m.stop,
            ruleName := m.ruleName, label := extractLabel text m }) c
      { s with cache := some c }

/-- `Stream.maybeEmitStatus`. -/
def maybeEmitStatus (s : Stream) (now : Int) (ms : List Match)
    (redacted : List Nat) : Stream :=
  if ¬s.statusEnabled ∨ ms.length = 0 ∨ s.altScreen then s
  else if s.statusRateLimit > 0 ∧ now - s.lastStatus < s.statusRateLimit
  then s
  else if redacted = [] ∨ ¬redacted.getLast? = some 10 then s
  else
    match ms with
    | [] => s
    | first :: _ =>
      let line := statusLine (ms.length : Int) s.strictMode s.includeID
        first.secretType first.id
      if line = [] then s
      else { s with out := s.out ++ line ++ [10], lastStatus := now }

/-- `Stream.updateAltScreen`. -/
def updateAltScreen (s : Stream) (esc : List Nat) : Stream :=
  if containsSub esc (strBytes "[?1049h") ∨ containsSub esc (strBytes "[?47h")
      ∨ containsSub esc (strBytes "[?1047h") then
    { s with altScreen := true }
  else if containsSub esc (strBytes "[?1049l") ∨
      containsSub esc (strBytes "[?47l") ∨
      containsSub esc (strBytes "[?1047l") then
    { s with altScreen := false }
  else s

/-- Body of the `for _, run := range splitControlRuns(buf)` loop of
`Stream.writeInteractive`: control runs pass through, text runs are
detected, cached and redacted per run. -/
def interactiveStep (now : Int) (s : Stream) (run : TextRun) : Stream :=
  if run.control then { s with out := s.out ++ run.bytes }
  else
    let ms := s.detector run.bytes
    let p := assignIDs s ms
    let ms := p.1
    let s := p.2
    let s := storeMatches s now run.bytes ms
    let ap := s.redactor.apply s.redState run.bytes ms
    let s := { s with redState := ap.2, out := s.out ++ ap.1.1 }
    maybeEmitStatus s now ms ap.1.1

/-- `Stream.writeInteractive` (the `windowSize = 0` regime). -/
def writeInteractive (s : Stream) (now : Int) (buf : List Nat) : Stream :=
  (splitControlRuns buf).foldl (interactiveStep now) s

/-- `Stream.processText`. -/
def processText (s : Stream) (now : Int) (text : List Nat) : Stream :=
  if s.windowSize = 0 then
    let s := { s with buffer := s.buffer ++ text }
    let p := splitUTF8Tail s.buffer
    if p.1 = [] then { s with buffer := p.2 }
    else
      let s := writeInteractive s now p.1
      { s with buffer := p.2 }
  else
    let s := { s with buffer := s.buffer ++ text }
    let emitLen : Int :=
      if (s.buffer.length : Int) > s.windowSize then
        (s.buffer.length : Int) - s.windowSize
      else 0
    if emitLen = 0 then s
    else
      let ms := s.detector s.buffer
      let emitLen := safeEmitLen emitLen ms
      let emitLen := utf8SafePrefixLen s.buffer emitLen
      if emitLen = 0 then s
      else
        let emitBuf := s.buffer.take emitLen.toNat
        let keepBuf := s.buffer.drop emitLen.toNat
        let emitMatches := filterMatches ms emitLen
        let p := assignIDs s emitMatches
        let emitMatches := p.1
        let s := p.2
        let s := storeMatches s now emitBuf emitMatches
        let ap := s.redactor.apply s.redState emitBuf emitMatches
        let s := { s with redState := ap.2, out := s.out ++ ap.1.1 }
        let s := maybeEmitStatus s now emitMatches ap.1.1
        { s with buffer := keepBuf }

/-- Body of the `for _, seg := range segments` loop of `Stream.Write`:
escape segments update the alt-screen state and pass through verbatim,
text segments go through `processText`. -/
def writeSegStep (now : Int) (s : Stream) (seg : Segment) : Stream :=
  if seg.kind = .esc then
    let s := updateAltScreen s seg.bytes
    { s with out := s.out ++ seg.bytes }
  else processText s now seg.bytes

/-- `Stream.Write`: tokenize, pass escapes through verbatim (tracking the
alt screen), process text segments. -/
def streamWrite (s : Stream) (now : Int) (p : List Nat) : Stream :=
  let pr := s.tok.push p
  pr.1.foldl (writeSegStep now) { s with tok := pr.2 }

/-- `Stream.Flush` (also `Close`): drain the tokenizer, then redact and emit
whatever remains in the rolling buffer. -/
def streamFlush (s : Stream) (now : Int) : Stream :=
  let fr := s.tok.flush
  let s := { s with tok := fr.2, out := s.out ++ segsBytes fr.1 }
  if s.buffer = [] then s
  else
    let ms := s.detector s.buffer
    let p := assignIDs s ms
    let ms := p.1
    let s := p.2
    let s := storeMatches s now s.buffer ms
    let ap := s.redactor.apply s.redState s.buffer ms
    let s := { s with redState := ap.2, out := s.out ++ ap.1.1 }
    let s := maybeEmitStatus s now ms ap.1.1
    { s with buffer := [] }

/-- A whole session: a sequence of timestamped `Write` calls. -/
def runWrites (s : Stream) (writes : List (Int × List Nat)) : Stream :=
  writes.foldl (fun s w => streamWrite s w.1 w.2) s

/-! ## Specification companions and concrete instances -/

/-- Specification companion of `Redactor.Apply` for the refinement theorem:
the sub-list of spans the cursor sweep actually applies — matches starting
before the cursor (overlapping an already-applied match) or with
out-of-bounds spans are skipped, an applied match moves the cursor to its
end. -/
def applySelect (textLen : Int) : Int → List Match → List Match
  | _, [] => []
  | cursor, m :: rest =>
    if m.start < cursor then applySelect textLen cursor rest
    else if m.start < 0 ∨ m.stop > textLen ∨ m.stop ≤ m.start then
      applySelect textLen cursor rest
    else m :: applySelect textLen m.stop rest

/-- Specification companion of `Redactor.Apply`: renders an applied span
list as verbatim gap, replacement, …, verbatim tail — every byte outside
the applied spans is a literal slice of the input. -/
def applyRender (r : Redactor) (text : List Nat) :
    RedState → Int → List Match → List Nat × RedState
  | st, cursor, [] => (sliceInt text cursor (text.length : Int), st)
  | st, cursor, m :: rest =>
    let p := r.replacement st (sliceInt text m.start m.stop) m
    let q := applyRender r text p.2 m.stop rest
    (sliceInt text cursor m.start ++ p.1 ++ q.1, q.2)

/-- A random source that always yields byte 10: `randomHexNibble` then
always picks the hex digit 'a'. -/
def constRng : Nat → Nat := fun _ => 10

/-- Concrete redactor with default masking config (empty style = block) and
the adversarial constant random source. -/
def constRedactor : Redactor :=
  { masking := {}, redaction := { defaultAction := "mask" },
    rng := constRng, hmacTag := fun _ _ => [] }

/-- A mask-action match covering all of the 4-byte buffer `"0xaa"`. -/
def evmMatch4 : Match :=
  { start := 0, stop := 4, action := "mask", secretType := "EVM_PK",
    ruleName := "r", id := 0 }

/-- Matcher oracle for the context-gating rule of the repository's own test
(`TestRegexContextKeywordGatesMatch`): on the buffer `"abc12345"` Go's
`regexp.MustCompile("([A-Za-z0-9]\x7b8,\x7d)").FindAllStringSubmatchIndex`
returns exactly one match whose whole-match and group-1 spans are `[0, 8)`;
the oracle is only ever applied to that buffer. -/
def tokenGenericRe (text : List Nat) : List (List Int) :=
  if text = strBytes "abc12345" then [[0, 8, 0, 8]] else []

/-- The compiler oracle mapping the test rule's pattern to its matcher. -/
def tokenGenericCompile (pattern : String) : List Nat → List (List Int) :=
  if pattern = "([A-Za-z0-9]\x7b8,\x7d)" then tokenGenericRe else fun _ => []

/-- The regex rule of `TestRegexContextKeywordGatesMatch`: enabled, pattern
`([A-Za-z0-9]\x7b8,\x7d)` group 1, secret type AUTH_TOKEN, context keyword
"token". -/
def tokenGenericRule : Rule :=
  { name := "token_generic", enabled := true, type := "regex",
    action := "mask", severity := "high", secretType := "AUTH_TOKEN",
    ruleset := "auth_tokens",
    regex := some { pattern := "([A-Za-z0-9]\x7b8,\x7d)", group := 1 },
    contextKeywords := [strBytes "token"] }

/-- The engine built from that single rule (no typed detectors). -/
def tokenGenericEngine : Engine :=
  NewEngine tokenGenericCompile (fun _ => []) (fun _ => [])
    { rules := [tokenGenericRule], typedDetectors := [],
      allowBare64Hex := false }

/-! ## Theorems -/

theorem segsBytes_append (s₁ s₂ : List Segment) :
    segsBytes (s₁ ++ s₂) = segsBytes s₁ ++ segsBytes s₂ := by
  simp [segsBytes]

theorem pushByte_bytes (a : PushAcc) (b : Nat) (hw : accWF a) :
    accBytes (pushByte a b) = accBytes a ++ [b] ∧ accWF (pushByte a b) := by
  obtain ⟨⟨st, escBuf, escIn⟩, textBuf, segs⟩ := a
  obtain ⟨h1, h2⟩ := hw
  cases st <;>
    simp only [pushByte, accWF, accBytes, flushText, flushEsc] at * <;>
    split_ifs <;>
    simp_all [segsBytes_append, segsBytes]

theorem foldl_pushByte_bytes (data : List Nat) (a : PushAcc) (hw : accWF a) :
    accBytes (data.foldl pushByte a) = accBytes a ++ data ∧
      accWF (data.foldl pushByte a) := by
  induction data generalizing a with
  | nil => simpa using hw
  | cons b rest ih =>
    obtain ⟨hb, hw'⟩ := pushByte_bytes a b hw
    obtain ⟨hr, hw''⟩ := ih (pushByte a b) hw'
    refine ⟨?_, hw''⟩
    simp [List.foldl_cons, hr, hb]

/-- Well-formedness of a tokenizer between `Push` calls. -/
def Tokenizer.WF (t : Tokenizer) : Prop := t.st = .text → t.escBuf = []

theorem push_bytes (t : Tokenizer) (data : List Nat) (hw : t.WF) :
    segsBytes (t.push data).1 ++ (t.push data).2.escBuf = t.escBuf ++ data ∧
      (t.push data).2.WF := by
  have h0 : accWF ⟨t, [], []⟩ := ⟨fun h => hw h, fun _ => rfl⟩
  obtain ⟨hb, hw'⟩ := foldl_pushByte_bytes data ⟨t, [], []⟩ h0
  set a := data.foldl pushByte ⟨t, [], []⟩ with ha
  obtain ⟨hw1, hw2⟩ := hw'
  have hacc : segsBytes a.segs ++ a.textBuf ++ a.tok.escBuf = t.escBuf ++ data := by
    have := hb
    simpa [accBytes, segsBytes] using this
  by_cases hst : a.tok.st = .text
  · have hesc : a.tok.escBuf = [] := hw1 hst
    simp only [Tokenizer.push, ← ha, hst, if_pos]
    constructor
    · simp only [flushText]
      split_ifs with htb
      · simpa [htb, hesc] using hacc
      · simpa [segsBytes_append, segsBytes, hesc] using hacc
    · intro h
      simp only [flushText]
      split_ifs <;> simp [hesc]
  · have htb : a.textBuf = [] := hw2 hst
    simp only [Tokenizer.push, ← ha, hst, if_neg, not_false_iff]
    constructor
    · simpa [htb] using hacc
    · intro h
      exact hw1 h

theorem pushAll_bytes (t : Tokenizer) (chunks : List (List Nat)) (hw : t.WF) :
    segsBytes (pushAll t chunks).1 ++ (pushAll t chunks).2.escBuf =
      t.escBuf ++ chunks.flatten ∧ (pushAll t chunks).2.WF := by
  induction chunks generalizing t with
  | nil => simpa [pushAll, segsBytes] using hw
  | cons ch rest ih =>
    obtain ⟨h1, hw1⟩ := push_bytes t ch hw
    obtain ⟨h2, hw2⟩ := ih (t.push ch).2 hw1
    refine ⟨?_, hw2⟩
    simp only [pushAll, segsBytes_append]
    calc segsBytes (t.push ch).1 ++ segsBytes (pushAll (t.push ch).2 rest).1 ++
          (pushAll (t.push ch).2 rest).2.escBuf
        = segsBytes (t.push ch).1 ++ ((t.push ch).2.escBuf ++ rest.flatten) := by
          rw [List.append_assoc, h2]
      _ = (segsBytes (t.push ch).1 ++ (t.push ch).2.escBuf) ++ rest.flatten := by
          simp [List.append_assoc]
      _ = (t.escBuf ++ ch) ++ rest.flatten := by rw [h1]
      _ = t.escBuf ++ (ch :: rest).flatten := by simp

/-- C2.  Tokenizer round-trip: for every byte sequence and every chunking of
it, the bytes of all segments returned by the successive `Push` calls,
followed by those returned by `Flush`, concatenate to exactly the input. -/
theorem tokenizer_roundtrip (chunks : List (List Nat)) :
    segsBytes ((pushAll Tokenizer.init chunks).1 ++
        ((pushAll Tokenizer.init chunks).2.flush).1) = chunks.flatten := by
  obtain ⟨h, hw⟩ := pushAll_bytes Tokenizer.init chunks (fun _ => rfl)
  rw [segsBytes_append]
  set t := (pushAll Tokenizer.init chunks).2 with ht
  have : segsBytes t.flush.1 = t.escBuf := by
    by_cases hst : t.st = .text
    · simp [Tokenizer.flush, hst, segsBytes, hw hst]
    · simp [Tokenizer.flush, hst, segsBytes]
  rw [this]
  simpa [Tokenizer.init] using h

theorem safePass_go_le (ms : List Match) (init : Int × Bool) :
    (ms.foldl (fun acc m =>
        if m.start < acc.1 ∧ m.stop > acc.1 then (m.start, true) else acc)
        init).1 ≤ init.1 := by
  induction ms generalizing init with
  | nil => simp
  | cons m rest ih =>
    simp only [List.foldl_cons]
    split_ifs with h
    · exact le_trans (ih (m.start, true)) (le_of_lt h.1)
    · exact ih init

theorem safePass_lt (ms : List Match) (e : Int)
    (h : (safePass ms e).2 = true) : (safePass ms e).1 < e := by
  unfold safePass at *
  induction ms generalizing e with
  | nil => simp at h
  | cons m rest ih =>
    simp only [List.foldl_cons] at h ⊢
    split_ifs at h ⊢ with hc
    · calc (rest.foldl _ (m.start, true)).1 ≤ m.start :=
            safePass_go_le rest (m.start, true)
        _ < e := hc.1
    · exact ih e h

theorem safePass_fixed (ms : List Match) (e : Int)
    (h : (safePass ms e).2 = false) :
    (safePass ms e).1 = e ∧
      ∀ m ∈ ms, ¬(m.start < e ∧ m.stop > e) := by
  unfold safePass at *
  induction ms generalizing e with
  | nil => simp
  | cons m rest ih =>
    simp only [List.foldl_cons] at h ⊢
    split_ifs at h ⊢ with hc
    · exfalso
      -- once the flag is set it is never cleared
      have mono : ∀ (l : List Match) (x : Int),
          (l.foldl (fun acc m =>
            if m.start < acc.1 ∧ m.stop > acc.1 then (m.start, true) else acc)
            (x, true)).2 = true := by
        intro l
        induction l with
        | nil => simp
        | cons p q ihq =>
          intro x
          simp only [List.foldl_cons]
          split_ifs <;> exact ihq _
      rw [mono rest m.start] at h
      simp at h
    · obtain ⟨h1, h2⟩ := ih e h
      exact ⟨h1, by
        intro p hp
        rcases List.mem_cons.mp hp with hp | hp
        · simpa [hp] using hc
        · exact h2 p hp⟩

theorem safeEmitLoop_not_inside (ms : List Match) (e : Int)
    (hpos : ∀ m ∈ ms, 0 ≤ m.start) :
    ∀ m ∈ ms,
      ¬(m.start < safeEmitLoop ms e ∧ safeEmitLoop ms e < m.stop) := by
  induction e using safeEmitLoop.induct ms with
  | case1 e h hle =>
    rw [safeEmitLoop, dif_pos h, if_pos hle]
    intro m hm hcontra
    exact absurd hcontra.1 (not_lt.mpr (hpos m hm))
  | case2 e h hle ih =>
    rw [safeEmitLoop, dif_pos h, if_neg hle]
    exact ih
  | case3 e h =>
    rw [safeEmitLoop, dif_neg h]
    have := safePass_fixed ms e (by simpa using h)
    rw [this.1]
    intro m hm hcontra
    exact this.2 m hm ⟨hcontra.1, hcontra.2⟩

/-- C3.  Emit boundary never splits a secret: for every match list whose
spans start at non-negative offsets (as every detector-produced list does),
the emit length returned by the iterative clamping `safeEmitLen` is never
strictly inside any match. -/
theorem safeEmitLen_no_split (emitLen : Int) (ms : List Match)
    (hpos : ∀ m ∈ ms, 0 ≤ m.start) :
    ∀ m ∈ ms,
      ¬(m.start < safeEmitLen emitLen ms ∧
        safeEmitLen emitLen ms < m.stop) := by
  unfold safeEmitLen
  split_ifs with h
  · intro m hm hcontra
    exact absurd hcontra.1 (not_lt.mpr (hpos m hm))
  · exact safeEmitLoop_not_inside ms emitLen hpos

/-- Witness for C3 at a concrete input: the window boundary 4 falls inside
the match `[2, 6)`, and the clamping settles at 2, which is inside no match. -/
theorem safeEmitLen_no_split_witness :
    safeEmitLen 4 [⟨2, 6, "mask", "EVM_PK", "r", 0⟩] = 2 ∧
      ¬((2 : Int) < safeEmitLen 4 [⟨2, 6, "mask", "EVM_PK", "r", 0⟩] ∧
        safeEmitLen 4 [⟨2, 6, "mask", "EVM_PK", "r", 0⟩] < 6) := by
  constructor
  · rw [safeEmitLen]
    norm_num
    rw [safeEmitLoop]
    norm_num [safePass]
    rw [safeEmitLoop]
    norm_num [safePass]
  · exact safeEmitLen_no_split 4 [⟨2, 6, "mask", "EVM_PK", "r", 0⟩]
      (by intro m hm; simp at hm; simp [hm]) ⟨2, 6, "mask", "EVM_PK", "r", 0⟩
      (by simp)

theorem hexRandom_length (rng : Nat → Nat) (pos : Nat) (original : List Nat)
    (uppercase : Bool) :
    ((hexRandomSameLength rng pos original uppercase).1).length =
      original.length := by
  unfold hexRandomSameLength
  by_cases h : hasHexMarker original
  · have h2 : 2 ≤ original.length := by
      simp only [hasHexMarker, decide_eq_true_eq] at h
      exact h.1
    simp [h, List.length_take, List.length_drop]
    omega
  · simp [h]

theorem maskBlock_length (original blockChar : List Nat) :
    (maskBlock original blockChar).length =
      utf8RuneCount original * blockChar.length := by
  unfold maskBlock
  by_cases h : utf8RuneCount original ≤ 0
  · have h0 : utf8RuneCount original = 0 := Nat.le_zero.mp h
    simp [h, h0]
  · simp [h, List.length_flatten, List.map_replicate, List.sum_replicate,
      smul_eq_mul]

/-- C6 (amended).  `hex_random_same_length` preserves the byte length of
every replaced span for every random source; the `block` mask emits
`block_char` once per rune, so its byte length is the rune count of the span
times the byte length of `block_char` — byte length is preserved exactly
when `block_char` is a single byte and the span has one byte per rune. -/
theorem mask_length_characterization :
    (∀ (rng : Nat → Nat) (pos : Nat) (original : List Nat) (uppercase : Bool),
      ((hexRandomSameLength rng pos original uppercase).1).length =
        original.length) ∧
    (∀ original blockChar : List Nat,
      (maskBlock original blockChar).length =
        utf8RuneCount original * blockChar.length) :=
  ⟨hexRandom_length, maskBlock_length⟩

/-- C6 counterexample: the block mask applied to the 2-byte non-hex span
`"zz"` with the default 3-byte block char `█` yields 6 bytes, not 2 — the
block style preserves rune count, not byte length. -/
theorem maskBlock_breaks_byte_length :
    (maskBlock [122, 122] [226, 150, 136]).length = 6 ∧
      ([122, 122] : List Nat).length = 2 ∧ looksHex [122, 122] = false := by
  refine ⟨?_, by decide, by decide⟩
  have hrc : utf8RuneCount [122, 122] = 2 := by
    simp [utf8RuneCount, utf8AdvanceTail]
  rw [maskBlock_length, hrc]
  decide

/-- C1 (amended).  Replacement-level no-leak for the block mask: whenever a
match resolves to the mask action with stable-hash disabled and a non-glow,
non-morse style, and the span neither looks hex nor is typed `EVM_PK`, and
the span contains at least one byte not occurring in `block_char`, then the
replacement emitted for that span never contains the original span bytes —
for every redactor state (hence every random source). -/
theorem redaction_block_no_leak (r : Redactor) (st : RedState) (m : Match)
    (original : List Nat)
    (hact : (if m.action = "" then r.redaction.defaultAction else m.action)
      = "mask")
    (hsh : r.masking.stableHashEnabled = false)
    (hglow : r.masking.style ≠ "glow") (hmorse : r.masking.style ≠ "morse")
    (hty : m.secretType ≠ "EVM_PK") (hhex : looksHex original = false)
    (hb : ∃ b ∈ original, b ∉ r.masking.blockChar) :
    ¬ List.IsInfix original (r.replacement st original m).1 := by
  obtain ⟨b, hbmem, hbnot⟩ := hb
  intro hinf
  have hout : (r.replacement st original m).1 =
      maskBlock original r.masking.blockChar := by
    by_cases hs : r.masking.style = ""
    · simp [Redactor.replacement, Redactor.maskBytes, hact, hsh, hs, hty,
        hhex]
    · simp [Redactor.replacement, Redactor.maskBytes, hact, hsh, hs, hglow,
        hmorse, hty, hhex]
  have hb2 : b ∈ maskBlock original r.masking.blockChar := by
    rw [← hout]
    exact hinf.subset hbmem
  by_cases hr : utf8RuneCount original ≤ 0
  · simp [maskBlock, hr] at hb2
  · rw [show maskBlock original r.masking.blockChar =
        (List.replicate (utf8RuneCount original)
          r.masking.blockChar).flatten by simp [maskBlock, hr]] at hb2
    rcases List.mem_flatten.mp hb2 with ⟨l, hl, hbl⟩
    have := (List.mem_replicate.mp hl).2
    subst this
    exact hbnot hbl

/-- Witness for C1 (amended): the non-hex span `"zz"` masked by the default
config redactor produces a replacement that does not contain `"zz"`. -/
theorem redaction_block_no_leak_witness :
    looksHex [122, 122] = false ∧
      ¬ List.IsInfix [122, 122]
        (constRedactor.replacement {} [122, 122]
          { start := 0, stop := 2, action := "mask", secretType := "G",
            ruleName := "r", id := 0 }).1 := by
  refine ⟨by decide, ?_⟩
  exact redaction_block_no_leak constRedactor {} _ [122, 122] (by decide)
    (by decide) (by decide) (by decide) (by decide) (by decide)
    ⟨122, by decide, by decide⟩

/-- C1 counterexample: on the hex-looking buffer `"0xaa"` wholly covered by
a mask-action match, the redactor with the constant random source yields
output equal to the input — the original span bytes appear verbatim in what
the stream writes (the `0x` prefix is always copied and the random source
can reproduce the body), refuting the universal no-leak claim. -/
theorem apply_reproduces_original_hex :
    (constRedactor.apply {} [48, 120, 97, 97] [evmMatch4]).1.1 =
        [48, 120, 97, 97] ∧
      List.IsInfix (sliceInt [48, 120, 97, 97] evmMatch4.start evmMatch4.stop)
        (constRedactor.apply {} [48, 120, 97, 97] [evmMatch4]).1.1 := by
  have h : (constRedactor.apply {} [48, 120, 97, 97] [evmMatch4]).1.1 =
      [48, 120, 97, 97] := by decide
  refine ⟨h, ?_⟩
  rw [h]
  exact ⟨[], [], by decide⟩

/-- C4 (code bug evaluation).  On the buffer `"abc12345"`, with the regex
rule of the repository's own gating test (`context_keywords = ["token"]`),
`Engine.Find` keeps the candidate even though no keyword occurs within 64
bytes of the span: the regex pass performs no context-keyword gating. -/
theorem regex_rule_ignores_context_keywords :
    tokenGenericEngine.find (strBytes "abc12345") =
      [{ start := 0, stop := 8, action := "mask", secretType := "EVM_PK",
         ruleName := "token_generic", id := 0 }] ∧
      hasContextKeyword (strBytes "abc12345") 0 8
        (lowerKeywords tokenGenericRule.contextKeywords) = false := by
  constructor
  · decide
  · decide

/-- C5 counterexample: the rule is configured with secret type AUTH_TOKEN,
yet the candidate the regex pass produces carries the fixed constant
`EVM_PK`. -/
theorem regex_secret_type_counterexample :
    (findRegexMatches tokenGenericEngine (strBytes "abc12345")).map
        (fun c => c.m.secretType) = ["EVM_PK"] ∧
      tokenGenericEngine.regexRules.map (fun cr => cr.rule.secretType) =
        ["AUTH_TOKEN"] := by
  constructor
  · decide
  · decide

/-- C5 (amended).  Every candidate produced by the regex pass carries
secret type `EVM_PK` (`types.SecretEvmPrivateKey`), regardless of the
secret type configured on the rule that produced it. -/
theorem regex_pass_secret_type_constant (e : Engine) (text : List Nat)
    (c : Candidate) (hc : c ∈ findRegexMatches e text) :
    c.m.secretType = "EVM_PK" := by
  unfold findRegexMatches at hc
  split_ifs at hc with h
  · simp at hc
  · rcases List.mem_flatten.mp hc with ⟨inner, hin, hcin⟩
    rcases List.mem_map.mp hin with ⟨rule, hrule, rfl⟩
    rcases List.mem_flatten.mp hcin with ⟨inner2, hin2, hcin2⟩
    rcases List.mem_map.mp hin2 with ⟨idx, hidx, rfl⟩
    by_cases hcap : (captureBounds idx rule.group).1 < 0 ∨
        (captureBounds idx rule.group).2 ≤ (captureBounds idx rule.group).1
    · simp [hcap] at hcin2
    · simp only [hcap, if_false] at hcin2
      simp at hcin2
      subst hcin2
      rfl

/-- Witness for C5 (amended) at the concrete engine and buffer. -/
theorem regex_pass_secret_type_constant_witness :
    (⟨⟨0, 8, "mask", "EVM_PK", "token_generic", 0⟩, 3, .regex, 8⟩ :
        Candidate) ∈
        findRegexMatches tokenGenericEngine (strBytes "abc12345") ∧
      (⟨⟨0, 8, "mask", "EVM_PK", "token_generic", 0⟩, 3, .regex, 8⟩ :
        Candidate).m.secretType = "EVM_PK" :=
  ⟨by decide, regex_pass_secret_type_constant tokenGenericEngine
    (strBytes "abc12345") _ (by decide)⟩

theorem applyStep_fold (r : Redactor) (text : List Nat) :
    ∀ (l : List Match) (out0 : List Nat) (cur : Int) (st : RedState),
      (l.foldl (r.applyStep text) ⟨out0, cur, st⟩).out ++
          sliceInt text (l.foldl (r.applyStep text) ⟨out0, cur, st⟩).cursor
            (text.length : Int) =
        out0 ++ (applyRender r text st cur
          (applySelect (text.length : Int) cur l)).1 := by
  intro l
  induction l with
  | nil =>
    intro out0 cur st
    simp [applySelect, applyRender]
  | cons m rest ih =>
    intro out0 cur st
    simp only [List.foldl_cons]
    by_cases h1 : m.start < cur
    · rw [show r.applyStep text ⟨out0, cur, st⟩ m = ⟨out0, cur, st⟩ by
        simp [Redactor.applyStep, h1]]
      rw [show applySelect (text.length : Int) cur (m :: rest) =
          applySelect (text.length : Int) cur rest by
        simp [applySelect, h1]]
      exact ih out0 cur st
    · by_cases h2 : m.start < 0 ∨ m.stop > (text.length : Int) ∨
          m.stop ≤ m.start
      · rw [show r.applyStep text ⟨out0, cur, st⟩ m = ⟨out0, cur, st⟩ by
          simp only [Redactor.applyStep, if_neg h1, if_pos h2]]
        rw [show applySelect (text.length : Int) cur (m :: rest) =
            applySelect (text.length : Int) cur rest by
          simp only [applySelect, if_neg h1, if_pos h2]]
        exact ih out0 cur st
      · rw [show r.applyStep text ⟨out0, cur, st⟩ m =
            ⟨out0 ++ sliceInt text cur m.start ++
              (r.replacement st (sliceInt text m.start m.stop) m).1,
              m.stop,
              (r.replacement st (sliceInt text m.start m.stop) m).2⟩ by
          simp only [Redactor.applyStep, if_neg h1, if_neg h2]]
        rw [show applySelect (text.length : Int) cur (m :: rest) =
            m :: applySelect (text.length : Int) m.stop rest by
          simp only [applySelect, if_neg h1, if_neg h2]]
        rw [ih (out0 ++ sliceInt text cur m.start ++
            (r.replacement st (sliceInt text m.start m.stop) m).1)
          m.stop ((r.replacement st (sliceInt text m.start m.stop) m).2)]
        simp [applyRender, List.append_assoc]

/-- C10.  `Redactor.Apply` is total and defensive: the error component is
always `nil`, and the output is exactly the rendering of the
start-sorted match list after the cursor sweep has skipped every
out-of-bounds span and every span overlapping an already-applied match —
with every byte outside the applied spans a verbatim slice of the input
(see `applySelect` / `applyRender`).  Holds for arbitrary, unsorted,
overlapping and out-of-bounds match lists. -/
theorem apply_total_defensive (r : Redactor) (st : RedState)
    (text : List Nat) (ms : List Match) :
    (r.apply st text ms).1.2 = none ∧
    (r.apply st text ms).1.1 =
      (applyRender r text st 0
        (applySelect (text.length : Int) 0 (sortByStart ms))).1 := by
  constructor
  · unfold Redactor.apply
    split_ifs <;> rfl
  · unfold Redactor.apply
    by_cases hms : ms = []
    · subst hms
      simp [sortByStart, applySelect, applyRender, sliceInt]
    · simp only [if_neg hms]
      have := applyStep_fold r text (sortByStart ms) [] 0 st
      simpa using this

theorem cachePut_entries (c : Cache) (now : Int) (r : SecretRecord)
    (httl : 0 < c.ttl) (horig : r.original ≠ []) (hmax : 1 ≤ c.maxEntries) :
    ∃ Y, (cachePut c now r).entries =
      ({ r with createdAt := now, expiresAt := now + c.ttl } :
        SecretRecord) :: Y := by
  unfold cachePut evictLocked evictExpired
  rw [if_neg (by omega : ¬c.ttl ≤ 0), if_neg horig]
  have hne : recExpired now
      ({ r with createdAt := now, expiresAt := now + c.ttl } :
        SecretRecord) = false := by
    simp [recExpired]
    omega
  dsimp only
  rw [List.filter_cons_of_pos (by simp [hne])]
  have h1 : 1 ≤ c.maxEntries.toNat := by omega
  cases hk : c.maxEntries.toNat with
  | zero => omega
  | succ k =>
    simp only [List.take_succ_cons]
    exact ⟨_, rfl⟩

/-- C8.  Cache put/get round-trip: with a positive TTL, a non-empty
original, at least one admitted entry and a non-negative clock, a `Get` of
the freshly `Put` id returns a record carrying the same original bytes if
and only if the lookup time is not past the record's expiry
`created_at + ttl`.  (With no operation between the put and the get, the
claim's LRU-eviction proviso is vacuous: the fresh entry is the most
recently used and survives its own insertion.) -/
theorem cache_put_get_roundtrip (c : Cache) (r : SecretRecord)
    (now later : Int) (httl : 0 < c.ttl) (horig : r.original ≠ [])
    (hmax : 1 ≤ c.maxEntries) (hnow : 0 ≤ now) :
    ((cacheGet (cachePut c now r) later r.id).1.map SecretRecord.original =
        some r.original) ↔ ¬now + c.ttl < later := by
  obtain ⟨Y, hY⟩ := cachePut_entries c now r httl horig hmax
  unfold cacheGet
  rw [hY]
  rw [List.find?_cons_of_pos _ (by simp)]
  by_cases hlt : now + c.ttl < later
  · have hexp : recExpired later
        ({ r with createdAt := now, expiresAt := now + c.ttl } :
          SecretRecord) = true := by
      simp [recExpired]
      omega
    simp [hexp, hlt]
  · have hexp : recExpired later
        ({ r with createdAt := now, expiresAt := now + c.ttl } :
          SecretRecord) = false := by
      simp [recExpired]
      omega
    simp [hexp, hlt]

/-- Witness for C8: a put at time 100 with TTL 5 is found at time 103 with
the same original bytes. -/
theorem cache_put_get_roundtrip_witness :
    0 < (cacheNew 2 5).ttl ∧
      ((cacheGet (cachePut (cacheNew 2 5) 100
          { id := 1, original := [97] }) 103 1).1.map
        SecretRecord.original = some [97]) := by
  refine ⟨by decide, ?_⟩
  exact (cache_put_get_roundtrip (cacheNew 2 5) { id := 1, original := [97] }
    100 103 (by decide) (by decide) (by decide) (by decide)).mpr (by decide)

/-- C9.  `copy-id` behaviour of `Server.handle` (ids in the cache are
unique in every reachable state, stated as the `Nodup` hypothesis): id 0 —
which is also what an absent JSON id decodes to — answers "missing id"; if
no non-expired record with the id exists the answer is "secret not found";
otherwise the copy callback is invoked with the record's original bytes and
the response is `ok` with the record's id, rule name, type and label on
callback success, or `ok = false` with the callback's message on error. -/
theorem ipc_copy_id_behaviour (c : Cache) (now : Int)
    (copyFn : List Nat → Option String) (reqId : Int)
    (hnodup : (c.entries.map SecretRecord.id).Nodup) :
    (reqId = 0 →
      (handleCopyId c now copyFn reqId).1 =
        { ok := false, error := "missing id" }) ∧
    (reqId ≠ 0 →
      (∀ rec ∈ c.entries, rec.id = reqId → recExpired now rec = true) →
      (handleCopyId c now copyFn reqId).1 =
        { ok := false, error := "secret not found" }) ∧
    (reqId ≠ 0 → ∀ rec ∈ c.entries, rec.id = reqId →
      recExpired now rec = false →
      (copyFn rec.original = none →
        (handleCopyId c now copyFn reqId).1 =
          { ok := true, id := rec.id, ruleName := rec.ruleName,
            stype := rec.stype, label := rec.label }) ∧
      (∀ msg, copyFn rec.original = some msg →
        (handleCopyId c now copyFn reqId).1 =
          { ok := false, error := msg })) := by
  refine ⟨?_, ?_, ?_⟩
  · intro h
    simp [handleCopyId, h]
  · intro hne hall
    cases hfind : c.entries.find? (fun rec => rec.id = reqId) with
    | none => simp [handleCopyId, hne, cacheGet, hfind]
    | some rec =>
      have hp : rec.id = reqId := by simpa using List.find?_some hfind
      have hmem : rec ∈ c.entries := List.mem_of_find?_eq_some hfind
      have hexp := hall rec hmem hp
      simp [handleCopyId, hne, cacheGet, hfind, hexp]
  · intro hne rec hmem hid hlive
    have hfind : c.entries.find? (fun r0 => r0.id = reqId) = some rec := by
      cases hf : c.entries.find? (fun r0 => r0.id = reqId) with
      | none =>
        exfalso
        have := List.find?_eq_none.mp hf rec hmem
        simp [hid] at this
      | some r0 =>
        have h1 : r0.id = reqId := by simpa using List.find?_some hf
        have h2 : r0 ∈ c.entries := List.mem_of_find?_eq_some hf
        have : r0 = rec :=
          List.inj_on_of_nodup_map hnodup h2 hmem (h1.trans hid.symm)
        rw [this]
    constructor
    · intro hcopy
      simp [handleCopyId, hne, cacheGet, hfind, hlive, hcopy]
    · intro msg hcopy
      simp [handleCopyId, hne, cacheGet, hfind, hlive, hcopy]

/-- Witness for C9: a live cached record with id 1 is copied and reported
with its rule name, type and label. -/
theorem ipc_copy_id_witness :
    (handleCopyId
        { entries := [{ id := 1, stype := "EVM_PK", original := [1, 2],
                        ruleName := "rule", label := [75] }],
          maxEntries := 64, ttl := 30, lastID := 1 }
        0 (fun _ => none) 1).1 =
      { ok := true, id := 1, ruleName := "rule", stype := "EVM_PK",
        label := [75] } := by
  have h := ipc_copy_id_behaviour
    { entries := [{ id := 1, stype := "EVM_PK", original := [1, 2],
                    ruleName := "rule", label := [75] }],
      maxEntries := 64, ttl := 30, lastID := 1 }
    0 (fun _ => none) 1 (by decide)
  exact (h.2.2 (by decide)
    { id := 1, stype := "EVM_PK", original := [1, 2],
      ruleName := "rule", label := [75] }
    (by simp) rfl (by decide)).1 rfl

theorem assignIDs_cache (s : Stream) (ms : List Match) :
    (assignIDs s ms).2.cache = s.cache ∧
      (assignIDs s ms).2.cacheOn = s.cacheOn := by
  unfold assignIDs
  split_ifs <;> constructor <;> rfl

theorem storeMatches_cacheOff (s : Stream) (now : Int) (text : List Nat)
    (ms : List Match) (h : s.cacheOn = false) :
    storeMatches s now text ms = s := by
  unfold storeMatches
  cases hc : s.cache with
  | none => rfl
  | some c => simp [h]

theorem maybeEmitStatus_cache (s : Stream) (now : Int) (ms : List Match)
    (redacted : List Nat) :
    (maybeEmitStatus s now ms redacted).cache = s.cache ∧
      (maybeEmitStatus s now ms redacted).cacheOn = s.cacheOn := by
  unfold maybeEmitStatus
  split_ifs <;> try exact ⟨rfl, rfl⟩
  cases ms with
  | nil => exact ⟨rfl, rfl⟩
  | cons a l =>
    dsimp only
    split_ifs <;> exact ⟨rfl, rfl⟩

theorem updateAltScreen_cache (s : Stream) (esc : List Nat) :
    (updateAltScreen s esc).cache = s.cache ∧
      (updateAltScreen s esc).cacheOn = s.cacheOn := by
  unfold updateAltScreen
  split_ifs <;> exact ⟨rfl, rfl⟩

theorem interactiveStep_cacheOff (now : Int) (s : Stream) (run : TextRun)
    (h : s.cacheOn = false) :
    (interactiveStep now s run).cache = s.cache ∧
      (interactiveStep now s run).cacheOn = false := by
  unfold interactiveStep
  split_ifs with hc
  · exact ⟨rfl, h⟩
  · dsimp only
    rw [storeMatches_cacheOff _ _ _ _
      (by rw [(assignIDs_cache _ _).2]; exact h)]
    refine ⟨?_, ?_⟩
    · rw [(maybeEmitStatus_cache _ _ _ _).1, (assignIDs_cache _ _).1]
    · rw [(maybeEmitStatus_cache _ _ _ _).2, (assignIDs_cache _ _).2]
      exact h

theorem writeInteractive_cacheOff (now : Int) (buf : List Nat) :
    ∀ s : Stream, s.cacheOn = false →
      (writeInteractive s now buf).cache = s.cache ∧
        (writeInteractive s now buf).cacheOn = false := by
  unfold writeInteractive
  generalize splitControlRuns buf = runs
  induction runs with
  | nil => exact fun s h => ⟨rfl, h⟩
  | cons run rest ih =>
    intro s h
    simp only [List.foldl_cons]
    obtain ⟨hc1, hc2⟩ := interactiveStep_cacheOff now s run h
    obtain ⟨hr1, hr2⟩ := ih (interactiveStep now s run) hc2
    exact ⟨hr1.trans hc1, hr2⟩

theorem processText_cacheOff (s : Stream) (now : Int) (text : List Nat)
    (h : s.cacheOn = false) :
    (processText s now text).cache = s.cache ∧
      (processText s now text).cacheOn = false := by
  unfold processText
  by_cases hw : s.windowSize = 0
  · simp only [if_pos hw]
    split_ifs with hp
    · exact ⟨rfl, h⟩
    · obtain ⟨h1, h2⟩ := writeInteractive_cacheOff now _
        { s with buffer := s.buffer ++ text } h
      exact ⟨h1, h2⟩
  · simp only [if_neg hw]
    split_ifs
    all_goals try exact ⟨rfl, h⟩
    all_goals
      dsimp only
      rw [storeMatches_cacheOff _ _ _ _
        (by rw [(assignIDs_cache _ _).2]; exact h)]
      refine ⟨?_, ?_⟩
      · rw [(maybeEmitStatus_cache _ _ _ _).1, (assignIDs_cache _ _).1]
      · rw [(maybeEmitStatus_cache _ _ _ _).2, (assignIDs_cache _ _).2]
        exact h

theorem writeSegStep_cacheOff (now : Int) (s : Stream) (seg : Segment)
    (h : s.cacheOn = false) :
    (writeSegStep now s seg).cache = s.cache ∧
      (writeSegStep now s seg).cacheOn = false := by
  unfold writeSegStep
  split_ifs with hk
  · obtain ⟨h1, h2⟩ := updateAltScreen_cache s seg.bytes
    exact ⟨h1, h2.trans h⟩
  · exact processText_cacheOff s now seg.bytes h

theorem streamWrite_cacheOff (s : Stream) (now : Int) (p : List Nat)
    (h : s.cacheOn = false) :
    (streamWrite s now p).cache = s.cache ∧
      (streamWrite s now p).cacheOn = false := by
  unfold streamWrite
  have key : ∀ (segs : List Segment) (s0 : Stream), s0.cacheOn = false →
      (segs.foldl (writeSegStep now) s0).cache = s0.cache ∧
        (segs.foldl (writeSegStep now) s0).cacheOn = false := by
    intro segs
    induction segs with
    | nil => exact fun s0 h0 => ⟨rfl, h0⟩
    | cons seg rest ih =>
      intro s0 h0
      simp only [List.foldl_cons]
      obtain ⟨hc1, hc2⟩ := writeSegStep_cacheOff now s0 seg h0
      obtain ⟨hr1, hr2⟩ := ih (writeSegStep now s0 seg) hc2
      exact ⟨hr1.trans hc1, hr2⟩
  exact key (s.tok.push p).1 { s with tok := (s.tok.push p).2 } h

theorem runWrites_cacheOff (writes : List (Int × List Nat)) :
    ∀ s : Stream, s.cacheOn = false →
      (runWrites s writes).cache = s.cache ∧
        (runWrites s writes).cacheOn = false := by
  unfold runWrites
  induction writes with
  | nil => exact fun s h => ⟨rfl, h⟩
  | cons w rest ih =>
    intro s h
    simp only [List.foldl_cons]
    obtain ⟨hc1, hc2⟩ := streamWrite_cacheOff s w.1 w.2 h
    obtain ⟨hr1, hr2⟩ := ih (streamWrite s w.1 w.2) hc2
    exact ⟨hr1.trans hc1, hr2⟩

theorem streamFlush_cacheOff (s : Stream) (now : Int)
    (h : s.cacheOn = false) :
    (streamFlush s now).cache = s.cache := by
  unfold streamFlush
  dsimp only
  split_ifs with hb
  · rfl
  · rw [storeMatches_cacheOff _ _ _ _
      (by rw [(assignIDs_cache _ _).2]; exact h)]
    rw [(maybeEmitStatus_cache _ _ _ _).1, (assignIDs_cache _ _).1]

/-- C7.  Strict mode never snapshots originals: when the config has
`mode = strict` and `strict.disable_copy_original = true`, `NewStream`
computes `cacheOn = false`, and then for every detector, every random
source, every sequence of `Write` calls and the final `Flush`, the stream
performs no cache `Put` — the secret cache is bit-for-bit the one it was
handed, so no copy of any original secret bytes is ever retained in it. -/
theorem strict_mode_never_caches (cfg : Config)
    (detector : List Nat → List Match) (cache0 : Cache) (rng : Nat → Nat)
    (hmacTag : String → String → List Nat)
    (writes : List (Int × List Nat)) (closeTime : Int)
    (hmode : cfg.mode = "strict")
    (hdis : cfg.strict.disableCopyOriginal = true) :
    (streamFlush
        (runWrites (NewStream cfg detector (some cache0) rng hmacTag) writes)
        closeTime).cache = some cache0 := by
  have h0 : (NewStream cfg detector (some cache0) rng hmacTag).cacheOn
      = false := by
    simp [NewStream, hmode, hdis]
  obtain ⟨h1, h2⟩ := runWrites_cacheOff writes _ h0
  rw [streamFlush_cacheOff _ _ h2, h1]
  rfl

/-- Witness for C7: a concrete strict-mode config, a detector that reports
a secret covering the whole buffer, one write and a close leave the cache
untouched. -/
theorem strict_mode_never_caches_witness :
    (streamFlush
        (runWrites
          (NewStream
            { mode := "strict", strict := { disableCopyOriginal := true },
              redaction := { defaultAction := "mask",
                             rollingWindowBytes := 2 },
              copyWithoutRenderEnabled := true }
            (fun text => [{ start := 0, stop := (text.length : Int),
                            action := "mask", secretType := "EVM_PK",
                            ruleName := "r", id := 0 }])
            (some (cacheNew 4 30)) constRng (fun _ _ => []))
          [(0, [115, 101, 99, 114, 101, 116])])
        1).cache = some (cacheNew 4 30) :=
  strict_mode_never_caches
    { mode := "strict", strict := { disableCopyOriginal := true },
      redaction := { defaultAction := "mask", rollingWindowBytes := 2 },
      copyWithoutRenderEnabled := true }
    (fun text => [{ start := 0, stop := (text.length : Int),
                    action := "mask", secretType := "EVM_PK",
                    ruleName := "r", id := 0 }])
    (cacheNew 4 30) constRng (fun _ _ => [])
    [(0, [115, 101, 99, 114, 101, 116])] 1 rfl rfl

end Secretty
